import Mathlib

/-!
Verification of the data-transformation pipeline of a Streamlit dashboard
(src/app.py).  The pipeline is: load a CSV (lower-casing column names),
derive an integer year from the period label, filter rows to a year range,
group by year taking the mean of each indicator column, and compute derived
columns (percent change, rolling mean / rolling sample standard deviation,
complement percentage).  Missing values (pandas NaN) are embedded as `none`
in `Option ℚ`; all other arithmetic is exact rational arithmetic.
-/

namespace SLDash

/-- One observation row of the filtered dataset: an integer year (the
`year_only` column) and a mapping from indicator code to an optional numeric
value (`none` embeds pandas NaN / a missing value). -/
structure Row where
  year : Int
  value : String → Option Rat

/-- Range Filter, src/app.py line 102:
`filtered_df = df[(df['year_only'] >= lo) & (df['year_only'] <= hi)]`. -/
def rangeFilter (lo hi : Int) (rows : List Row) : List Row :=
  rows.filter (fun r => decide (lo ≤ r.year) && decide (r.year ≤ hi))

/-- Insert a year into a strictly sorted list, keeping it sorted and
duplicate-free (used to model the sorted group keys of pandas `groupby`,
whose default is `sort=True`). -/
def insertYear (y : Int) : List Int → List Int
  | [] => [y]
  | z :: zs => if y < z then y :: z :: zs else if y = z then z :: zs else z :: insertYear y zs

/-- The strictly increasing list of the distinct elements of `ys`. -/
def sortedDistinct (ys : List Int) : List Int := ys.foldr insertYear []

/-- The distinct years of the input rows, ascending — the group keys of
`filtered_df.groupby('year_only')` (src/app.py line 105). -/
def distinctYears (rows : List Row) : List Int :=
  sortedDistinct (rows.map (fun r => r.year))

/-- The non-missing values of indicator `c` among the rows of year `y`,
in input order (pandas group of `c` with NaN skipped, `skipna=True`). -/
def colVals (c : String) (y : Int) (rows : List Row) : List Rat :=
  (rows.filter (fun r => decide (r.year = y))).filterMap (fun r => r.value c)

/-- Mean aggregation of one `groupby` cell: pandas `'mean'` skips NaN and
yields NaN (here `none`) when every value of the group is missing. -/
def groupMean (c : String) (y : Int) (rows : List Row) : Option Rat :=
  let vs := colVals c y rows
  if vs.length = 0 then none else some (vs.sum / (vs.length : Rat))

/-- One row of the annual (aggregated) frame. -/
structure AnnualRow where
  year : Int
  value : String → Option Rat

/-- The indicator codes aggregated by the dashboard
(the `.agg({...: 'mean'})` dictionary, src/app.py lines 105-115). -/
def aggIndicators : List String :=
  ["ny.gdp.mktp.cd", "sp.dyn.le00.in", "sp.pop.grow", "sp.dyn.tfrt.in",
   "sp.rur.totl.zs", "sh.dyn.aids.zs", "ny.gdp.defl.zs",
   "dt.tds.dect.gn.zs", "pa.nus.fcrf"]

/-- Annual Aggregator, src/app.py lines 105-115:
`annual_df = filtered_df.groupby('year_only').agg({c: 'mean', ...}).reset_index()`.
One output row per distinct year (ascending), each listed indicator mapped to
the mean of its non-missing values within the year. -/
def annualAgg (inds : List String) (rows : List Row) : List AnnualRow :=
  (distinctYears rows).map (fun y =>
    { year := y, value := fun c => if c ∈ inds then groupMean c y rows else none })

/-- The column of indicator `c` of the annual frame, indexed by ascending
year, as a list of optional values. -/
def annualCol (c : String) (rows : List Row) : List (Option Rat) :=
  (distinctYears rows).map (fun y => groupMean c y rows)

/-- One step of `Series.pct_change()` (no filling, the pandas default with
`fill_method=None`), restricted to the rational codomain: defined only when
both neighbours are present and the previous value is non-zero.  This
version collapses the float `±inf` result of a zero divisor to missing (it
has no rational value); the float-faithful behaviour of that path is
modeled by `pctStepF` below, and this rational version is used only where
the zero-divisor case is immaterial. -/
def pctStep (prev cur : Option Rat) : Option Rat :=
  match prev, cur with
  | some a, some b => if a = 0 then none else some ((b - a) / a)
  | _, _ => none

/-- Tail of `pct_change`: each output pairs the previous raw element with the
current one. -/
def pctChangeAux (prev : Option Rat) : List (Option Rat) → List (Option Rat)
  | [] => []
  | x :: xs => pctStep prev x :: pctChangeAux x xs

/-- `Series.pct_change()`: first element has no prior baseline and is
missing; element `i+1` is `(v[i+1] - v[i]) / v[i]` when both are present. -/
def pctChange : List (Option Rat) → List (Option Rat)
  | [] => []
  | x :: xs => none :: pctChangeAux x xs

/-- A column multiplied pointwise by 100, with missing entries kept missing
(pandas `series * 100` keeps NaN). -/
def times100 (col : List (Option Rat)) : List (Option Rat) :=
  col.map (Option.map (fun v => v * 100))

/-- `annual_df['gdp_growth_pct'] = annual_df['ny.gdp.mktp.cd'].pct_change() * 100`
(src/app.py lines 118-119), over the ascending-year annual column. -/
def gdp_growth_pct (rows : List Row) : List (Option Rat) :=
  times100 (pctChange (annualCol "ny.gdp.mktp.cd" rows))

/-- A value of the percent-change column under IEEE float semantics: a
finite (rational) value or a signed infinity; NaN is embedded as `none` at
the use sites.  Needed because numpy division of a nonzero value by zero
yields `±inf` — a present value — not NaN. -/
inductive FVal where
  | fin (q : Rat)
  | posInf
  | negInf
  deriving DecidableEq, Repr

/-- One step of `Series.pct_change()` under float semantics
(`(b - a) / a` in IEEE arithmetic): a zero prior with a nonzero current
value yields a signed infinity (a present value), `0 / 0` yields NaN, and a
missing neighbour propagates NaN. -/
def pctStepF (prev cur : Option Rat) : Option FVal :=
  match prev, cur with
  | some a, some b =>
    if a = 0 then
      if 0 < b then some FVal.posInf
      else if b < 0 then some FVal.negInf
      else none
    else some (FVal.fin ((b - a) / a))
  | _, _ => none

/-- Tail of the float-semantics `pct_change`. -/
def pctChangeAuxF (prev : Option Rat) : List (Option Rat) → List (Option FVal)
  | [] => []
  | x :: xs => pctStepF prev x :: pctChangeAuxF x xs

/-- `Series.pct_change()` under float semantics: first element missing,
element `i+1` is `pctStepF` of the neighbours. -/
def pctChangeF : List (Option Rat) → List (Option FVal)
  | [] => []
  | x :: xs => none :: pctChangeAuxF x xs

/-- Multiplication by 100 on a float value: infinities are preserved. -/
def mul100F : FVal → FVal
  | FVal.fin q => FVal.fin (q * 100)
  | FVal.posInf => FVal.posInf
  | FVal.negInf => FVal.negInf

/-- A float column multiplied pointwise by 100, NaN kept. -/
def times100F (col : List (Option FVal)) : List (Option FVal) :=
  col.map (Option.map mul100F)

/-- The `gdp_growth_pct` column (src/app.py lines 118-119) under float
semantics, keeping the `±inf` results of zero divisors. -/
def gdp_growth_pctF (rows : List Row) : List (Option FVal) :=
  times100F (pctChangeF (annualCol "ny.gdp.mktp.cd" rows))

/-- The `w` consecutive positions of `xs` ending at position `t` inclusive
(meaningful when `w ≤ t+1`). -/
def windowAt (w : Nat) (xs : List (Option Rat)) (t : Nat) : List (Option Rat) :=
  (xs.take (t + 1)).drop (t + 1 - w)

/-- Rolling aggregation with window `w` and aggregate `f`, the embedding of
`series.rolling(window=w).agg(...)` with the default `min_periods = w`: the
output at position `t` is missing until `w` positions are available, and a
missing value anywhere in the window keeps the non-missing count below
`min_periods`, so the output is missing there too. -/
def rollingAgg (f : List Rat → Option Rat) (w : Nat) (xs : List (Option Rat)) :
    List (Option Rat) :=
  (List.range xs.length).map (fun t =>
    if w ≤ t + 1 then
      if (windowAt w xs t).all Option.isSome then f ((windowAt w xs t).filterMap id)
      else none
    else none)

/-- Mean of a list of rationals, missing when the list is empty. -/
def meanQ (vs : List Rat) : Option Rat :=
  if vs.length = 0 then none else some (vs.sum / (vs.length : Rat))

/-- Sample variance (`ddof = 1`, the pandas default for `std`): missing when
fewer than two values are given (pandas divides by `count - 1` and yields
NaN).  The rolling standard deviation of the source is the square root of
this quantity; the square root does not change which positions are defined,
and the statistic is kept in squared form to stay in exact arithmetic. -/
def sampleVarQ (vs : List Rat) : Option Rat :=
  if vs.length ≤ 1 then none
  else some (((vs.map (fun v => (v - vs.sum / (vs.length : Rat)) ^ 2)).sum) /
    ((vs.length : Rat) - 1))

/-- `rolling_std = annual_df['gdp_growth_pct'].rolling(window=5).std()`
(src/app.py line 325), kept as the squared statistic (sample variance). -/
def rolling_std (rows : List Row) : List (Option Rat) :=
  rollingAgg sampleVarQ 5 (gdp_growth_pct rows)

/-- `annual_df['gdp_growth_smoothed'] = annual_df['gdp_growth_pct'].rolling(window=3).mean()`
(src/app.py lines 645-646). -/
def gdp_growth_smoothed (rows : List Row) : List (Option Rat) :=
  rollingAgg meanQ 3 (gdp_growth_pct rows)

/-- Complement percentage, `100 - v` pointwise with NaN kept
(src/app.py line 537: `annual_df['urban_population_pct'] = 100 - annual_df['sp.rur.totl.zs']`). -/
def complementPct (col : List (Option Rat)) : List (Option Rat) :=
  col.map (Option.map (fun v => 100 - v))

/-- `urban_population_pct` column of the annual frame. -/
def urban_population_pct (rows : List Row) : List (Option Rat) :=
  complementPct (annualCol "sp.rur.totl.zs" rows)

/-! ### Loader and Period Normalizer -/

/-- A raw table as loaded from the CSV: named columns of optional values. -/
def Table := List (String × List (Option Rat))

/-- Loader, src/app.py lines 70-75: reads the CSV and lower-cases every
column name (`data.columns = [col.lower() for col in data.columns]`). -/
def load_data (t : Table) : Table :=
  t.map (fun p => (p.1.toLower, p.2))

/-- The process-lifetime memoization performed by the `@st.cache_data`
decorator on `load_data`: the first call computes and stores the loaded
table, later calls return the stored value. -/
def cachedLoad (cache : Option Table) (t : Table) : Table × Option Table :=
  match cache with
  | some d => (d, some d)
  | none => (load_data t, some (load_data t))

/-- Digits of a natural number string to its value; `none` if empty or some
character is not a decimal digit. -/
def digitsToNat (cs : List Char) : Option Nat :=
  if cs = [] then none
  else if cs.all Char.isDigit then
    some (cs.foldl (fun n c => 10 * n + (c.toNat - 48)) 0)
  else none

/-- Integer parse in the style of Python `int(s)` / `astype(int)` on a
string: an optional sign followed by at least one decimal digit. -/
def pyInt (s : String) : Option Int :=
  match s.data with
  | [] => none
  | '-' :: rest => (digitsToNat rest).map (fun n => -(n : Int))
  | '+' :: rest => (digitsToNat rest).map (fun n => (n : Int))
  | l => (digitsToNat l).map (fun n => (n : Int))

/-- `s.split('-')[0]`: the part of the period label before the first
separator (the whole label when no separator occurs). -/
def yearPart (s : String) : String :=
  String.mk (s.data.takeWhile (fun c => c ≠ '-'))

/-- A raw record before year normalization: an optional composite period
label (`time_period` column), an optional pre-existing integer `year`
column, and the indicator values. -/
structure RawRow where
  time_period : Option String
  year : Option Int
  value : String → Option Rat

/-- Period Normalizer, src/app.py lines 80-85: when the dataset has a
`time_period` column the year is the integer prefix of the label before the
first `-` (`df['time_period'].str.split('-').str[0].astype(int)`);
otherwise the existing `year` column is used. `none` embeds the
`MalformedPeriod` failure (the `astype(int)` `ValueError`). -/
def deriveYear (hasTimePeriod : Bool) (r : RawRow) : Option Int :=
  if hasTimePeriod then r.time_period.bind (fun p => pyInt (yearPart p))
  else r.year

/-- Normalize one raw record to a pipeline row, failing when no year can be
derived. -/
def toRow (hasTimePeriod : Bool) (r : RawRow) : Option Row :=
  (deriveYear hasTimePeriod r).map (fun y => { year := y, value := r.value })

/-- Year normalization of the whole dataset, run once right after load and
before any filtering; a single malformed period aborts it (the uncaught
`ValueError` of `astype(int)`), rather than letting a wrong year through. -/
def normalizeYears (hasTimePeriod : Bool) : List RawRow → Option (List Row)
  | [] => some []
  | r :: rs =>
    (toRow hasTimePeriod r).bind (fun row =>
      (normalizeYears hasTimePeriod rs).map (fun rest => row :: rest))

/-- The pipeline up to the Range Filter: normalization happens first, on the
full dataset, and the filter then reads the derived years. -/
def pipelineFiltered (hasTimePeriod : Bool) (raws : List RawRow) (lo hi : Int) :
    Option (List Row) :=
  (normalizeYears hasTimePeriod raws).map (rangeFilter lo hi)

/-! ### View Selector -/

/-- An element emitted to the page by a view section. -/
inductive ViewElem where
  | chart (title : String)
  | placeholder (msg : String)
  deriving DecidableEq, Repr

/-- Whether some emitted element is an informational placeholder. -/
def hasPlaceholder (es : List ViewElem) : Bool :=
  es.any (fun e => match e with
    | ViewElem.placeholder _ => true
    | _ => false)

/-- The correlation-matrix section of `show_correlations`, src/app.py lines
693-744: the heatmap is drawn only when at least two of the key indicators
are available columns; the `if` has no `else` branch, so with fewer than two
indicators the section emits nothing at all. -/
def corrSection (availableIndicators : List String) : List ViewElem :=
  if 2 ≤ availableIndicators.length then
    [ViewElem.chart "Correlation Matrix of Key Indicators"]
  else []

/-- The custom scatter of `show_data_explorer`, src/app.py lines 919-952:
when both selected variables are columns of the annual frame a scatter chart
is produced, otherwise a placeholder figure carrying an informational
annotation. -/
def scatterSection (annualCols : List String) (xcol ycol : String) : ViewElem :=
  if xcol ∈ annualCols ∧ ycol ∈ annualCols then
    ViewElem.chart "scatter"
  else
    ViewElem.placeholder
      "One or both of the selected variables are not available in the dataset"

/-! ### Pearson correlation (src/app.py lines 695-697) -/

/-- Pairwise-complete rows of a pair of columns: positions where either value
is missing are dropped for this pair (the `DataFrame.corr` default). -/
def pairRows (xs ys : List (Option Rat)) : List (Rat × Rat) :=
  (xs.zip ys).filterMap (fun p =>
    match p with
    | (some a, some b) => some (a, b)
    | _ => none)

/-- `n·Σv² - (Σv)²`, the variance of `l` scaled by `n²`; zero exactly when
the (population) variance is zero. -/
def nvar (l : List Rat) : Rat :=
  (l.length : Rat) * (l.map (fun v => v ^ 2)).sum - l.sum ^ 2

/-- `n·Σxy - Σx·Σy`, the covariance of the pairs scaled by `n²`. -/
def ncov (ps : List (Rat × Rat)) : Rat :=
  (ps.length : Rat) * (ps.map (fun p => p.1 * p.2)).sum
    - (ps.map Prod.fst).sum * (ps.map Prod.snd).sum

/-- Pearson correlation of two optional columns, pairwise-complete:
`r = cov / (σx·σy) = ncov / √(nvar·nvar)` (the `n²` scalings cancel).
Missing (pandas NaN) when either column is constant or no complete pair
exists. -/
noncomputable def pearsonR (xs ys : List (Option Rat)) : Option Real :=
  let ps := pairRows xs ys
  let d := nvar (ps.map Prod.fst) * nvar (ps.map Prod.snd)
  if d = 0 then none
  else some ((ncov ps : Real) / Real.sqrt ((d : Rat) : Real))

/-- `corr_matrix = annual_df[available_indicators].corr()`
(src/app.py line 697): entry `(i, j)` is the pairwise-complete Pearson
correlation of the `i`-th and `j`-th selected annual columns. -/
noncomputable def corr_matrix (inds : List String) (rows : List Row) (i j : Nat) :
    Option Real :=
  pearsonR (annualCol (inds.getD i "") rows) (annualCol (inds.getD j "") rows)

/-! ### Concrete sample data used by the witnesses -/

/-- A row carrying a single indicator `"a"`. -/
def rowA (y : Int) (v : Option Rat) : Row :=
  { year := y, value := fun c => if c = "a" then v else none }

/-- A small concrete dataset: quarterly-style duplicate years, a missing
value, and an all-missing year. -/
def sampleRows : List Row :=
  [rowA 2018 (some 100), rowA 2019 (some 200), rowA 2018 none, rowA 2020 none]

/-- A concrete column exercising the percent-change edge cases. -/
def sampleCol : List (Option Rat) :=
  [some 100, some 110, none, some 5, some 0, some 7]

/-- A concrete all-present column of six values. -/
def fullCol : List (Option Rat) :=
  [some 1, some 2, some 3, some 4, some 5, some 6]

/-- `fullCol` with one value missing (position 2). -/
def gapCol : List (Option Rat) :=
  [some 1, some 2, none, some 4, some 5, some 6]

/-- A concrete well-formed raw record with a quarterly period label. -/
def rawQ1 : RawRow :=
  { time_period := some "1970-Q1", year := none, value := fun _ => none }

/-- A concrete raw record whose period label has no integer prefix. -/
def rawBad : RawRow :=
  { time_period := some "19x0-Q1", year := none, value := fun _ => none }

/-- A concrete raw table with mixed-case column names. -/
def sampleTable : Table :=
  [("GDP", [some 1]), ("Year", []), ("sp.pop.grow", [none])]

end SLDash

/-! ## Theorems -/

namespace SLDash

theorem mem_insertYear (a y : Int) (l : List Int) :
    a ∈ insertYear y l ↔ a = y ∨ a ∈ l := by
  induction l with
  | nil => simp [insertYear]
  | cons z zs ih =>
    by_cases h1 : y < z
    · rw [insertYear, if_pos h1]
      simp [List.mem_cons]
    · by_cases h2 : y = z
      · rw [insertYear, if_neg h1, if_pos h2]
        subst h2
        simp only [List.mem_cons]
        tauto
      · rw [insertYear, if_neg h1, if_neg h2]
        simp only [List.mem_cons, ih]
        tauto

theorem sorted_insertYear (y : Int) (l : List Int) (h : l.Sorted (· < ·)) :
    (insertYear y l).Sorted (· < ·) := by
  induction l with
  | nil => simp [insertYear]
  | cons z zs ih =>
    rw [List.sorted_cons] at h
    by_cases h1 : y < z
    · rw [insertYear, if_pos h1, List.sorted_cons]
      refine ⟨fun b hb => ?_, List.sorted_cons.mpr h⟩
      rcases List.mem_cons.mp hb with hb | hb
      · exact hb ▸ h1
      · exact h1.trans (h.1 b hb)
    · by_cases h2 : y = z
      · rw [insertYear, if_neg h1, if_pos h2, List.sorted_cons]
        exact h
      · rw [insertYear, if_neg h1, if_neg h2, List.sorted_cons]
        refine ⟨fun b hb => ?_, ih h.2⟩
        rcases (mem_insertYear b y zs).mp hb with hb | hb
        · exact hb ▸ lt_of_le_of_ne (not_lt.mp h1) (Ne.symm h2)
        · exact h.1 b hb

theorem sorted_sortedDistinct (ys : List Int) :
    (sortedDistinct ys).Sorted (· < ·) := by
  induction ys with
  | nil => simp [sortedDistinct]
  | cons y t ih => exact sorted_insertYear y _ ih

theorem mem_sortedDistinct (a : Int) (ys : List Int) :
    a ∈ sortedDistinct ys ↔ a ∈ ys := by
  induction ys with
  | nil => simp [sortedDistinct]
  | cons y t ih =>
    show a ∈ insertYear y (sortedDistinct t) ↔ _
    rw [mem_insertYear, ih, List.mem_cons]

theorem sorted_lt_ext : ∀ {l1 l2 : List Int}, l1.Sorted (· < ·) →
    l2.Sorted (· < ·) → (∀ a, a ∈ l1 ↔ a ∈ l2) → l1 = l2
  | [], [], _, _, _ => rfl
  | [], b :: t2, _, _, hm => absurd ((hm b).mpr (List.mem_cons_self b t2)) (by simp)
  | a :: t1, [], _, _, hm => absurd ((hm a).mp (List.mem_cons_self a t1)) (by simp)
  | a :: t1, b :: t2, h1, h2, hm => by
    rw [List.sorted_cons] at h1 h2
    have hab : a = b := by
      rcases List.mem_cons.mp ((hm a).mp (List.mem_cons_self a t1)) with h | h
      · exact h
      · rcases List.mem_cons.mp ((hm b).mpr (List.mem_cons_self b t2)) with h' | h'
        · exact h'.symm
        · exact absurd (h1.1 b h') (lt_asymm (h2.1 a h))
    subst hab
    have ht : t1 = t2 := by
      refine sorted_lt_ext h1.2 h2.2 (fun x => ⟨fun hx => ?_, fun hx => ?_⟩)
      · rcases List.mem_cons.mp ((hm x).mp (List.mem_cons_of_mem a hx)) with h | h
        · exact absurd (h ▸ h1.1 x hx) (lt_irrefl a)
        · exact h
      · rcases List.mem_cons.mp ((hm x).mpr (List.mem_cons_of_mem a hx)) with h | h
        · exact absurd (h ▸ h2.1 x hx) (lt_irrefl a)
        · exact h
    rw [ht]

theorem sortedDistinct_perm {l1 l2 : List Int} (h : l1.Perm l2) :
    sortedDistinct l1 = sortedDistinct l2 :=
  sorted_lt_ext (sorted_sortedDistinct l1) (sorted_sortedDistinct l2)
    (fun a => by rw [mem_sortedDistinct, mem_sortedDistinct, h.mem_iff])

/-- Claim C2: for every dataset and year range `(lo, hi)` the Range Filter
output is exactly the sub-sequence of input records with
`lo ≤ year ≤ hi`: it is a sublist of the input (order preserved), contains
only in-range records, contains every in-range record (with multiplicity,
by the `countP` equation), and an inverted range (`lo > hi`) yields the
empty output rather than an error.  The filter is a pure function of its
arguments. -/
theorem rangeFilter_correct (lo hi : Int) (rows : List Row) :
    (rangeFilter lo hi rows).Sublist rows
    ∧ (∀ r ∈ rangeFilter lo hi rows, lo ≤ r.year ∧ r.year ≤ hi)
    ∧ (∀ r ∈ rows, lo ≤ r.year → r.year ≤ hi → r ∈ rangeFilter lo hi rows)
    ∧ (∀ q : Row → Bool, (rangeFilter lo hi rows).countP q
        = rows.countP (fun r => q r && (decide (lo ≤ r.year) && decide (r.year ≤ hi))))
    ∧ (hi < lo → rangeFilter lo hi rows = []) := by
  refine ⟨List.filter_sublist rows, fun r hr => ?_, fun r hr h1 h2 => ?_,
    fun q => by simp only [rangeFilter, List.countP_filter], fun hlt => ?_⟩
  · have := (List.mem_filter.mp hr).2
    simp only [Bool.and_eq_true, decide_eq_true_eq] at this
    exact this
  · refine List.mem_filter.mpr ⟨hr, ?_⟩
    simp only [Bool.and_eq_true, decide_eq_true_eq]
    exact ⟨h1, h2⟩
  · refine List.filter_eq_nil_iff.mpr (fun r _ => ?_)
    simp only [Bool.and_eq_true, decide_eq_true_eq, not_and]
    intro h1 h2
    omega

/-- Witness for C2 at concrete data: the in-range record is kept, and the
inverted range `[5, 3]` yields the empty output. -/
theorem rangeFilter_correct_witness :
    (rowA 2018 (some 100) ∈ sampleRows
      ∧ (2018 : Int) ≤ (rowA 2018 (some 100)).year
      ∧ (rowA 2018 (some 100)).year ≤ 2019)
    ∧ rowA 2018 (some 100) ∈ rangeFilter 2018 2019 sampleRows
    ∧ ((3 : Int) < 5 ∧ rangeFilter 5 3 sampleRows = []) := by
  have hmem : rowA 2018 (some 100) ∈ sampleRows := List.mem_cons_self _ _
  refine ⟨⟨hmem, by decide, by decide⟩, ?_, by decide, ?_⟩
  · exact (rangeFilter_correct 2018 2019 sampleRows).2.2.1 _ hmem (by decide) (by decide)
  · exact (rangeFilter_correct 5 3 sampleRows).2.2.2.2 (by decide)

/-- Claim C8: the complement-percentage column maps every present value `v`
to `100 - v` and keeps every missing value missing — it never substitutes 0
and, being total, never raises.  Concretely `30 ↦ 70` and
`missing ↦ missing`, and this is exactly the `urban_population_pct` column
of the source. -/
theorem complementPct_correct (col : List (Option Rat)) :
    (complementPct col).length = col.length
    ∧ (∀ i, (complementPct col).get? i = (col.get? i).map (Option.map (fun v => 100 - v)))
    ∧ (∀ i, (complementPct col).get? i = some none ↔ col.get? i = some none)
    ∧ complementPct [some 30] = [some 70]
    ∧ complementPct [none] = [none]
    ∧ urban_population_pct = fun rows => complementPct (annualCol "sp.rur.totl.zs" rows) := by
  refine ⟨by simp [complementPct], fun i => List.get?_map _ _ _, fun i => ?_,
    by norm_num [complementPct], rfl, rfl⟩
  simp only [complementPct, List.get?_map]
  cases h : col.get? i with
  | none => simp
  | some x => cases x <;> simp

theorem annualAgg_map_year (inds : List String) (rows : List Row) :
    (annualAgg inds rows).map (fun a => a.year) = distinctYears rows := by
  rw [annualAgg, List.map_map]
  exact List.map_id _

/-- Claim C1: the Annual Aggregator emits exactly one row per distinct year
of its input (the year list is duplicate-free and its members are exactly
the input years), each output value is the mean (`sum / count`,
characterized by `v · count = sum`) of the indicator's non-missing values
among the input rows of that year, and a `(year, indicator)` cell with no
non-missing contribution is missing, never zero. -/
theorem annualAgg_correct (inds : List String) (rows : List Row) :
    ((annualAgg inds rows).map (fun a => a.year)).Nodup
    ∧ (∀ y : Int, y ∈ (annualAgg inds rows).map (fun a => a.year) ↔ ∃ r ∈ rows, r.year = y)
    ∧ (∀ i c, c ∈ inds →
        ((annualAgg inds rows).get? i).map (fun a => a.value c)
          = ((annualAgg inds rows).get? i).map (fun a => groupMean c a.year rows))
    ∧ (∀ c y, groupMean c y rows = none ↔ colVals c y rows = [])
    ∧ (∀ c y (v : Rat), groupMean c y rows = some v ↔
        colVals c y rows ≠ []
          ∧ v * ((colVals c y rows).length : Rat) = (colVals c y rows).sum)
    ∧ (∀ c y (q : Rat), q ∈ colVals c y rows ↔
        ∃ r ∈ rows, r.year = y ∧ r.value c = some q) := by
  refine ⟨?_, fun y => ?_, fun i c hc => ?_, fun c y => ?_, fun c y v => ?_, fun c y q => ?_⟩
  · rw [annualAgg_map_year]
    exact (sorted_sortedDistinct _).nodup
  · rw [annualAgg_map_year, distinctYears, mem_sortedDistinct, List.mem_map]
  · simp only [annualAgg, List.get?_map, Option.map_map]
    cases h : (distinctYears rows).get? i with
    | none => rfl
    | some z => simp [Function.comp, hc]
  · by_cases h : colVals c y rows = []
    · simp [groupMean, h]
    · simp [groupMean, h, List.length_eq_zero]
  · by_cases h : colVals c y rows = []
    · simp [groupMean, h]
    · have hlen : (colVals c y rows).length ≠ 0 := fun h0 => h (List.length_eq_zero.mp h0)
      have hlenQ : ((colVals c y rows).length : Rat) ≠ 0 := Nat.cast_ne_zero.mpr hlen
      rw [groupMean]
      simp only [if_neg hlen]
      constructor
      · intro hsome
        refine ⟨h, ?_⟩
        rw [← Option.some_inj.mp hsome, div_mul_cancel₀ _ hlenQ]
      · rintro ⟨-, hv⟩
        exact congrArg some ((div_eq_iff hlenQ).mpr hv.symm)
  · simp only [colVals, List.mem_filterMap, List.mem_filter, decide_eq_true_eq, id]
    constructor
    · rintro ⟨r, ⟨hr, hy⟩, hv⟩
      exact ⟨r, hr, hy, hv⟩
    · rintro ⟨r, hr, hy, hv⟩
      exact ⟨r, ⟨hr, hy⟩, hv⟩

/-- Witness for C1 at concrete data: the 2018 cell is the mean `100` of its
single non-missing value, and the 2020 cell (all values missing) is
missing. -/
theorem annualAgg_correct_witness :
    ("a" ∈ (["a"] : List String))
    ∧ (((annualAgg ["a"] sampleRows).get? 0).map (fun a => a.value "a")
        = ((annualAgg ["a"] sampleRows).get? 0).map (fun a => groupMean "a" a.year sampleRows))
    ∧ (colVals "a" 2018 sampleRows ≠ []
        ∧ (100 : Rat) * ((colVals "a" 2018 sampleRows).length : Rat)
            = (colVals "a" 2018 sampleRows).sum)
    ∧ groupMean "a" 2018 sampleRows = some 100
    ∧ (colVals "a" 2020 sampleRows = [] ∧ groupMean "a" 2020 sampleRows = none) := by
  obtain ⟨-, -, h3, h4, h5, -⟩ := annualAgg_correct ["a"] sampleRows
  have hcol : colVals "a" 2018 sampleRows = [100] := by decide
  have hprod : (100 : Rat) * ((colVals "a" 2018 sampleRows).length : Rat)
      = (colVals "a" 2018 sampleRows).sum := by
    rw [hcol]
    norm_num [List.sum_cons, List.sum_nil]
  refine ⟨by decide, h3 0 "a" (by decide), ⟨by simp [hcol], hprod⟩, ?_, by decide, ?_⟩
  · exact (h5 "a" 2018 100).mpr ⟨by simp [hcol], hprod⟩
  · exact (h4 "a" 2020).mpr (by decide)

theorem pctChangeAux_length (prev : Option Rat) (l : List (Option Rat)) :
    (pctChangeAux prev l).length = l.length := by
  induction l generalizing prev with
  | nil => rfl
  | cons x xs ih => simp [pctChangeAux, ih]

theorem pctChange_length (l : List (Option Rat)) : (pctChange l).length = l.length := by
  cases l with
  | nil => rfl
  | cons x xs => simp [pctChange, pctChangeAux_length]

theorem pctChangeAux_get? (l : List (Option Rat)) (prev : Option Rat) (i : Nat) :
    (pctChangeAux prev l).get? i
      = ((prev :: l).get? i).bind (fun a => (l.get? i).map (fun b => pctStep a b)) := by
  induction l generalizing prev i with
  | nil => cases i <;> rfl
  | cons x xs ih =>
    cases i with
    | zero => rfl
    | succ n => exact ih x n

theorem pctChange_get?_succ (l : List (Option Rat)) (i : Nat) :
    (pctChange l).get? (i + 1)
      = (l.get? i).bind (fun a => (l.get? (i + 1)).map (fun b => pctStep a b)) := by
  cases l with
  | nil => rfl
  | cons x xs => exact pctChangeAux_get? xs x i

theorem pctChangeAuxF_length (prev : Option Rat) (l : List (Option Rat)) :
    (pctChangeAuxF prev l).length = l.length := by
  induction l generalizing prev with
  | nil => rfl
  | cons x xs ih => simp [pctChangeAuxF, ih]

theorem pctChangeF_length (l : List (Option Rat)) : (pctChangeF l).length = l.length := by
  cases l with
  | nil => rfl
  | cons x xs => simp [pctChangeF, pctChangeAuxF_length]

theorem pctChangeAuxF_get? (l : List (Option Rat)) (prev : Option Rat) (i : Nat) :
    (pctChangeAuxF prev l).get? i
      = ((prev :: l).get? i).bind (fun a => (l.get? i).map (fun b => pctStepF a b)) := by
  induction l generalizing prev i with
  | nil => cases i <;> rfl
  | cons x xs ih =>
    cases i with
    | zero => rfl
    | succ n => exact ih x n

theorem pctChangeF_get?_succ (l : List (Option Rat)) (i : Nat) :
    (pctChangeF l).get? (i + 1)
      = (l.get? i).bind (fun a => (l.get? (i + 1)).map (fun b => pctStepF a b)) := by
  cases l with
  | nil => rfl
  | cons x xs => exact pctChangeAuxF_get? xs x i

/-- Claim C3, counterexample: with a zero prior value and the nonzero
current value 7, the percent-change output under the program's float
semantics is `+inf` — a present value, not a missing one — so the claim's
zero-prior-yields-missing conjunct is false of the program. -/
theorem pctChange_zero_counterexample :
    (times100F (pctChangeF [some 0, some 7])).get? 1 = some (some FVal.posInf)
      ∧ (times100F (pctChangeF [some 0, some 7])).get? 1 ≠ some none :=
  ⟨by decide, by decide⟩

/-- Claim C3 (amended): the percent-change series keeps the length of its
input, its first element is always missing, consecutive present values
`a, b` with `a ≠ 0` yield the finite value `(b - a) / a · 100`, and a
missing prior value yields a missing output; a zero prior value yields
`+inf` when the current value is positive, `-inf` when it is negative, and
missing only for `0 / 0` — the function is total, so no error is raised.
`gdp_growth_pctF` is exactly this transform of the annual GDP column. -/
theorem pctChangeF_correct (col : List (Option Rat)) :
    (times100F (pctChangeF col)).length = col.length
    ∧ (col ≠ [] → (times100F (pctChangeF col)).get? 0 = some none)
    ∧ (∀ i (a b : Rat), col.get? i = some (some a) → col.get? (i + 1) = some (some b) →
        a ≠ 0 →
        (times100F (pctChangeF col)).get? (i + 1)
          = some (some (FVal.fin ((b - a) / a * 100))))
    ∧ (∀ i, col.get? i = some none → i + 1 < col.length →
        (times100F (pctChangeF col)).get? (i + 1) = some none)
    ∧ (∀ i (b : Rat), col.get? i = some (some 0) → col.get? (i + 1) = some (some b) →
        (times100F (pctChangeF col)).get? (i + 1)
          = some (if 0 < b then some FVal.posInf
              else if b < 0 then some FVal.negInf else none))
    ∧ gdp_growth_pctF
        = fun rows => times100F (pctChangeF (annualCol "ny.gdp.mktp.cd" rows)) := by
  refine ⟨by simp [times100F, pctChangeF_length], ?_, fun i a b ha hb hne => ?_,
    fun i h hlen => ?_, fun i b h hb => ?_, rfl⟩
  · cases col with
    | nil => exact fun h => absurd rfl h
    | cons x xs => exact fun _ => rfl
  · simp only [times100F, List.get?_map, pctChangeF_get?_succ, ha, hb, Option.some_bind,
      Option.map_some']
    simp [pctStepF, hne, mul100F]
  · have hb := List.get?_eq_get (show i + 1 < col.length from hlen)
    simp only [times100F, List.get?_map, pctChangeF_get?_succ, h, hb, Option.some_bind,
      Option.map_some']
    simp [pctStepF]
  · simp only [times100F, List.get?_map, pctChangeF_get?_succ, h, hb, Option.some_bind,
      Option.map_some']
    simp only [pctStepF, if_pos rfl]
    by_cases h1 : 0 < b
    · simp [h1, mul100F]
    · by_cases h2 : b < 0
      · simp [h1, h2, mul100F]
      · simp [h1, h2]

/-- Witness for the amended C3 at `sampleCol = [100, 110, missing, 5, 0, 7]`:
the first element is missing, `100 → 110` gives the finite value `10`, the
missing value at position 2 makes position 3 missing, and the zero prior at
position 4 with current value `7 > 0` gives `+inf`. -/
theorem pctChangeF_correct_witness :
    (sampleCol ≠ [] ∧ sampleCol.get? 0 = some (some 100) ∧ sampleCol.get? 1 = some (some 110)
      ∧ (100 : Rat) ≠ 0 ∧ sampleCol.get? 2 = some none ∧ 2 + 1 < sampleCol.length
      ∧ sampleCol.get? 4 = some (some 0) ∧ sampleCol.get? 5 = some (some 7))
    ∧ (times100F (pctChangeF sampleCol)).get? 0 = some none
    ∧ (times100F (pctChangeF sampleCol)).get? 1 = some (some (FVal.fin 10))
    ∧ (times100F (pctChangeF sampleCol)).get? 3 = some none
    ∧ (times100F (pctChangeF sampleCol)).get? 5 = some (some FVal.posInf) := by
  obtain ⟨-, h1, h2, h3, h4, -⟩ := pctChangeF_correct sampleCol
  refine ⟨⟨by decide, by decide, by decide, by decide, by decide, by decide, by decide, by decide⟩,
    h1 (by decide), ?_, h3 2 (by decide) (by decide), ?_⟩
  · have hv : ((110 : Rat) - 100) / 100 * 100 = 10 := by norm_num
    rw [h2 0 100 110 (by decide) (by decide) (by decide), hv]
  · rw [h4 4 7 (by decide) (by decide), if_pos (by norm_num : (0 : Rat) < 7)]

theorem rollingAgg_getElem? (f : List Rat → Option Rat) (w : Nat) (xs : List (Option Rat))
    (t : Nat) (ht : t < xs.length) :
    (rollingAgg f w xs)[t]? = some (
      if w ≤ t + 1 then
        if (windowAt w xs t).all Option.isSome then f ((windowAt w xs t).filterMap id)
        else none
      else none) := by
  simp only [rollingAgg, List.getElem?_map]
  rw [List.getElem?_range ht]
  rfl

theorem length_filterMap_id_of_all_isSome {l : List (Option Rat)}
    (h : ∀ x ∈ l, x.isSome) : (l.filterMap id).length = l.length := by
  induction l with
  | nil => rfl
  | cons x xs ih =>
    cases x with
    | none => exact absurd (h none (List.mem_cons_self _ _)) (by simp)
    | some a =>
      simp only [List.filterMap_cons, id, List.length_cons]
      rw [ih (fun x hx => h x (List.mem_cons_of_mem _ hx))]

theorem windowAt_length (w : Nat) (xs : List (Option Rat)) (t : Nat) (ht : t < xs.length)
    (hw : w ≤ t + 1) : (windowAt w xs t).length = w := by
  rw [windowAt, List.length_drop, List.length_take, Nat.min_eq_left (by omega)]
  omega

/-- Claim C4: a rolling aggregation with window `w` keeps the input length,
is missing at every position with fewer than `w` values available, is
missing at every position whose window contains a missing value (no
partial-window imputation), and otherwise applies the statistic to exactly
the `w` consecutive values ending at `t` inclusive; with no missing input
the rolling sample standard deviation (`w ≥ 2`, kept as its square) and the
rolling mean (`w ≥ 1`) are defined from position `w - 1` onward.  The
function is total, so no exception is raised. -/
theorem rolling_correct (f : List Rat → Option Rat) (w : Nat) (xs : List (Option Rat)) :
    (rollingAgg f w xs).length = xs.length
    ∧ (∀ t, t < xs.length → t + 1 < w → (rollingAgg f w xs)[t]? = some none)
    ∧ (∀ t, t < xs.length → w ≤ t + 1 → none ∈ windowAt w xs t →
        (rollingAgg f w xs)[t]? = some none)
    ∧ (∀ t, t < xs.length → w ≤ t + 1 → (∀ x ∈ windowAt w xs t, x.isSome) →
        (rollingAgg f w xs)[t]? = some (f ((windowAt w xs t).filterMap id)))
    ∧ (∀ t, t < xs.length → w ≤ t + 1 → (windowAt w xs t).length = w)
    ∧ (∀ t j, t < xs.length → w ≤ t + 1 → j < w →
        (windowAt w xs t)[j]? = xs[t + 1 - w + j]?)
    ∧ (∀ t, t < xs.length → w ≤ t + 1 → 2 ≤ w → (∀ x ∈ windowAt w xs t, x.isSome) →
        ∃ v : Rat, (rollingAgg sampleVarQ w xs)[t]? = some (some v))
    ∧ (∀ t, t < xs.length → w ≤ t + 1 → 1 ≤ w → (∀ x ∈ windowAt w xs t, x.isSome) →
        ∃ v : Rat, (rollingAgg meanQ w xs)[t]? = some (some v)) := by
  have hpresent : ∀ (g : List Rat → Option Rat) t, t < xs.length → w ≤ t + 1 →
      (∀ x ∈ windowAt w xs t, x.isSome) →
      (rollingAgg g w xs)[t]? = some (g ((windowAt w xs t).filterMap id)) := by
    intro g t ht hw hall
    rw [rollingAgg_getElem? g w xs t ht, if_pos hw,
      if_pos (List.all_eq_true.mpr (fun x hx => hall x hx))]
  have hvals : ∀ t, t < xs.length → w ≤ t + 1 → (∀ x ∈ windowAt w xs t, x.isSome) →
      ((windowAt w xs t).filterMap id).length = w := by
    intro t ht hw hall
    rw [length_filterMap_id_of_all_isSome hall, windowAt_length w xs t ht hw]
  refine ⟨by simp [rollingAgg], fun t ht htw => ?_, fun t ht hw hmem => ?_, hpresent f,
    fun t => windowAt_length w xs t, fun t j ht hw hj => ?_, fun t ht hw hw2 hall => ?_,
    fun t ht hw hw1 hall => ?_⟩
  · rw [rollingAgg_getElem? f w xs t ht, if_neg (by omega)]
  · have hfalse : ¬ ((windowAt w xs t).all Option.isSome = true) := by
      rw [List.all_eq_true]
      intro hall
      simpa using hall none hmem
    rw [rollingAgg_getElem? f w xs t ht, if_pos hw, if_neg hfalse]
  · rw [windowAt, List.getElem?_drop, List.getElem?_take_of_lt (by omega)]
  · have hlen := hvals t ht hw hall
    have hne : ¬ ((windowAt w xs t).filterMap id).length ≤ 1 := by omega
    have hs : (sampleVarQ ((windowAt w xs t).filterMap id)).isSome := by
      simp only [sampleVarQ]
      rw [if_neg hne]
      rfl
    obtain ⟨v, hv⟩ := Option.isSome_iff_exists.mp hs
    exact ⟨v, by rw [hpresent sampleVarQ t ht hw hall, hv]⟩
  · have hlen := hvals t ht hw hall
    have hne : ¬ ((windowAt w xs t).filterMap id).length = 0 := by omega
    have hs : (meanQ ((windowAt w xs t).filterMap id)).isSome := by
      simp only [meanQ]
      rw [if_neg hne]
      rfl
    obtain ⟨v, hv⟩ := Option.isSome_iff_exists.mp hs
    exact ⟨v, by rw [hpresent meanQ t ht hw hall, hv]⟩

/-- Witness for C4 with window 5: at position 3 fewer than five values are
available, so the output is missing; at position 4 of an all-present column
the rolling statistic is defined; a single missing value inside the window
at position 4 of `gapCol` makes that output missing. -/
theorem rolling_correct_witness :
    ((3 : Nat) < fullCol.length ∧ 3 + 1 < 5)
    ∧ (rollingAgg sampleVarQ 5 fullCol)[3]? = some none
    ∧ ((4 : Nat) < fullCol.length ∧ 5 ≤ 4 + 1 ∧ (2 : Nat) ≤ 5
        ∧ ∀ x ∈ windowAt 5 fullCol 4, x.isSome)
    ∧ (∃ v : Rat, (rollingAgg sampleVarQ 5 fullCol)[4]? = some (some v))
    ∧ (none ∈ windowAt 5 gapCol 4)
    ∧ (rollingAgg sampleVarQ 5 gapCol)[4]? = some none := by
  obtain ⟨-, h2, -, -, -, -, h7, -⟩ := rolling_correct sampleVarQ 5 fullCol
  obtain ⟨-, -, g3, -⟩ := rolling_correct sampleVarQ 5 gapCol
  exact ⟨⟨by decide, by decide⟩, h2 3 (by decide) (by decide),
    ⟨by decide, by decide, by decide, by decide⟩,
    h7 4 (by decide) (by decide) (by decide) (by decide),
    by decide, g3 4 (by decide) (by decide) (by decide)⟩

/-- Claim C10: the Annual Aggregator output is ordered by strictly
increasing year, and is invariant under permutation of the input records;
the percent-change (and hence rolling) derived columns are, by
construction, the transforms of the annual column in this ascending-year
order, one entry per distinct year. -/
theorem annualAgg_sorted_correct (inds : List String) (rows rows2 : List Row) :
    ((annualAgg inds rows).map (fun a => a.year)).Sorted (· < ·)
    ∧ (rows.Perm rows2 → annualAgg inds rows = annualAgg inds rows2)
    ∧ gdp_growth_pct rows
        = times100 (pctChange
            ((distinctYears rows).map (fun y => groupMean "ny.gdp.mktp.cd" y rows)))
    ∧ rolling_std rows = rollingAgg sampleVarQ 5 (gdp_growth_pct rows)
    ∧ gdp_growth_smoothed rows = rollingAgg meanQ 3 (gdp_growth_pct rows)
    ∧ (gdp_growth_pct rows).length = (distinctYears rows).length := by
  refine ⟨?_, fun hperm => ?_, rfl, rfl, rfl, ?_⟩
  · rw [annualAgg_map_year]
    exact sorted_sortedDistinct _
  · have hy : distinctYears rows = distinctYears rows2 :=
      sortedDistinct_perm (hperm.map (fun r => r.year))
    have hg : ∀ c y, groupMean c y rows = groupMean c y rows2 := by
      intro c y
      have hp : (colVals c y rows).Perm (colVals c y rows2) :=
        (hperm.filter _).filterMap _
      rw [groupMean, groupMean, hp.length_eq, hp.sum_eq]
    rw [annualAgg, annualAgg, hy]
    refine List.map_congr_left (fun y _ => ?_)
    have hval : (fun c => if c ∈ inds then groupMean c y rows else none)
        = (fun c => if c ∈ inds then groupMean c y rows2 else none) :=
      funext (fun c => by by_cases hc : c ∈ inds <;> simp [hc, hg])
    rw [hval]
  · simp [gdp_growth_pct, times100, pctChange_length, annualCol]

/-- Witness for C10: aggregating the reversed sample dataset gives exactly
the same annual frame as aggregating it in its original order. -/
theorem annualAgg_sorted_correct_witness :
    (sampleRows.reverse.Perm sampleRows)
    ∧ annualAgg ["a"] sampleRows.reverse = annualAgg ["a"] sampleRows :=
  ⟨List.reverse_perm sampleRows,
    (annualAgg_sorted_correct ["a"] sampleRows.reverse sampleRows).2.1
      (List.reverse_perm sampleRows)⟩

theorem toRow_some {hasTP : Bool} {raw : RawRow} {row : Row}
    (h : toRow hasTP raw = some row) :
    deriveYear hasTP raw = some row.year ∧ row.value = raw.value := by
  rw [toRow] at h
  cases hd : deriveYear hasTP raw with
  | none => rw [hd] at h; simp at h
  | some y =>
    rw [hd] at h
    rw [Option.map_some'] at h
    rw [← Option.some_inj.mp h]
    exact ⟨rfl, rfl⟩

theorem mem_of_normalizeYears {hasTP : Bool} : ∀ {raws : List RawRow} {rows0 : List Row},
    normalizeYears hasTP raws = some rows0 → ∀ row ∈ rows0,
    ∃ raw ∈ raws, toRow hasTP raw = some row := by
  intro raws
  induction raws with
  | nil =>
    intro rows0 h row hrow
    rw [normalizeYears] at h
    rw [← Option.some_inj.mp h] at hrow
    simp at hrow
  | cons x xs ih =>
    intro rows0 h row hrow
    rw [normalizeYears] at h
    cases htx : toRow hasTP x with
    | none => rw [htx] at h; simp at h
    | some row0 =>
      rw [htx] at h
      cases hns : normalizeYears hasTP xs with
      | none => rw [hns] at h; simp at h
      | some rest =>
        rw [hns] at h
        simp only [Option.some_bind, Option.map_some'] at h
        rw [← Option.some_inj.mp h] at hrow
        rcases List.mem_cons.mp hrow with hr | hr
        · exact ⟨x, List.mem_cons_self _ _, hr ▸ htx⟩
        · obtain ⟨raw, hmem, hraw⟩ := ih hns row hr
          exact ⟨raw, List.mem_cons_of_mem _ hmem, hraw⟩

/-- Claim C5: the Period Normalizer derives the year from the prefix of a
composite period label before the first separator (`"1970-Q1" ↦ 1970`);
with no composite column it uses the existing year field directly; when the
prefix is not parseable as an integer the whole normalization fails
(`MalformedPeriod`, embedded as `none`) instead of producing a wrong year;
and it runs before any filtering — the Range Filter output is built from
the derived years of the raw records. -/
theorem deriveYear_correct :
    (∀ (r : RawRow) (p : String), r.time_period = some p →
        deriveYear true r = pyInt (yearPart p))
    ∧ (∀ r : RawRow, deriveYear false r = r.year)
    ∧ pyInt (yearPart "1970-Q1") = some 1970
    ∧ (∀ (raws : List RawRow) (r : RawRow), r ∈ raws → ∀ hasTP : Bool,
        deriveYear hasTP r = none → normalizeYears hasTP raws = none)
    ∧ (∀ (hasTP : Bool) (raws : List RawRow) (lo hi : Int) (out : List Row),
        pipelineFiltered hasTP raws lo hi = some out →
        ∀ row ∈ out, (lo ≤ row.year ∧ row.year ≤ hi)
          ∧ ∃ raw ∈ raws, deriveYear hasTP raw = some row.year ∧ row.value = raw.value) := by
  refine ⟨fun r p hp => by rw [deriveYear, if_pos rfl, hp, Option.some_bind], fun r => rfl,
    by decide,
    fun raws => ?_, fun hasTP raws lo hi out hout row hrow => ?_⟩
  · induction raws with
    | nil => intro r hr; simp at hr
    | cons x xs ih =>
      intro r hr hasTP hnone
      rcases List.mem_cons.mp hr with h | h
      · subst h
        rw [normalizeYears, toRow, hnone]
        rfl
      · rw [normalizeYears]
        rw [ih r h hasTP hnone]
        cases toRow hasTP x <;> rfl
  · rw [pipelineFiltered] at hout
    cases hn : normalizeYears hasTP raws with
    | none => rw [hn] at hout; simp at hout
    | some rows0 =>
      rw [hn, Option.map_some'] at hout
      rw [← Option.some_inj.mp hout] at hrow
      have hpred := (List.mem_filter.mp hrow).2
      simp only [Bool.and_eq_true, decide_eq_true_eq] at hpred
      obtain ⟨raw, hmem, hraw⟩ :=
        mem_of_normalizeYears hn row (List.mem_filter.mp hrow).1
      obtain ⟨hy, hv⟩ := toRow_some hraw
      exact ⟨hpred, raw, hmem, hy, hv⟩

/-- Witness for C5: the label `"1970-Q1"` normalizes to year 1970, and a
dataset containing the malformed label `"19x0-Q1"` makes normalization fail
rather than yielding a wrong year. -/
theorem deriveYear_correct_witness :
    (rawQ1.time_period = some "1970-Q1")
    ∧ deriveYear true rawQ1 = some 1970
    ∧ (rawBad ∈ [rawBad] ∧ deriveYear true rawBad = none
        ∧ normalizeYears true [rawBad] = none) := by
  obtain ⟨h1, -, h3, h4, -⟩ := deriveYear_correct
  refine ⟨rfl, ?_, List.mem_cons_self _ _, by decide, ?_⟩
  · rw [h1 rawQ1 "1970-Q1" rfl, h3]
  · exact h4 [rawBad] rawBad (List.mem_cons_self _ _) true (by decide)

theorem lookup_lower (t : Table) (c : String) (h : c ∈ t.map Prod.fst) :
    ∃ v, (load_data t).lookup c.toLower = some v := by
  induction t with
  | nil => simp at h
  | cons p ps ih =>
    rw [List.map_cons, List.mem_cons] at h
    show ∃ v, ((p.1.toLower, p.2) :: load_data ps).lookup c.toLower = some v
    rw [List.lookup_cons]
    cases hb : c.toLower == p.1.toLower with
    | true => exact ⟨p.2, rfl⟩
    | false =>
      rcases h with h | h
      · rw [h, beq_self_eq_true] at hb
        simp at hb
      · exact ih h

/-- Claim C9: after the Loader runs every column identifier of the returned
table is the lowercase form of the corresponding input identifier, so a
lookup by the canonical lowercase key succeeds for every input column name;
the `@st.cache_data` memoization is modeled as explicit cache state: the
first call stores the pure load result and later calls return exactly the
stored table (and, the embedding being purely functional, the load result
is never mutated). -/
theorem load_data_correct (t : Table) :
    ((load_data t).map Prod.fst = (t.map Prod.fst).map String.toLower)
    ∧ (∀ c, c ∈ t.map Prod.fst → ∃ v, (load_data t).lookup c.toLower = some v)
    ∧ ((cachedLoad none t).1 = load_data t
        ∧ (cachedLoad (cachedLoad none t).2 t).1 = load_data t
        ∧ ∀ d : Table, (cachedLoad (some d) t).1 = d) :=
  ⟨by simp [load_data, List.map_map, Function.comp], fun c h => lookup_lower t c h,
    rfl, rfl, fun d => rfl⟩

/-- Witness for C9: the mixed-case input column `"GDP"` is found by looking
up its lowercase key in the loaded table. -/
theorem load_data_correct_witness :
    ("GDP" ∈ sampleTable.map Prod.fst)
    ∧ (∃ v, (load_data sampleTable).lookup ("GDP".toLower) = some v) :=
  ⟨by decide, (load_data_correct sampleTable).2.1 "GDP" (by decide)⟩

theorem pairRows_cons (x y : Option Rat) (xs ys : List (Option Rat)) :
    pairRows (x :: xs) (y :: ys)
      = match x, y with
        | some a, some b => (a, b) :: pairRows xs ys
        | _, _ => pairRows xs ys := by
  cases x <;> cases y <;> simp [pairRows, List.zip_cons_cons, List.filterMap_cons]

theorem pairRows_swap (xs ys : List (Option Rat)) :
    pairRows ys xs = (pairRows xs ys).map (fun p => (p.2, p.1)) := by
  induction xs generalizing ys with
  | nil => cases ys <;> rfl
  | cons x xs ih =>
    cases ys with
    | nil => rfl
    | cons y ys' =>
      rw [pairRows_cons, pairRows_cons]
      cases x <;> cases y <;> simp [ih ys']

theorem pairRows_self (xs : List (Option Rat)) :
    pairRows xs xs = (xs.filterMap id).map (fun a => (a, a)) := by
  induction xs with
  | nil => rfl
  | cons x xs ih =>
    rw [pairRows_cons]
    cases x <;> simp [List.filterMap_cons, ih]

theorem sum_sq_nonneg (l : List Rat) : 0 ≤ (l.map (fun v => v ^ 2)).sum :=
  List.sum_nonneg (fun x hx => by
    obtain ⟨v, -, rfl⟩ := List.mem_map.mp hx
    positivity)

theorem sq_sum_le (l : List Rat) :
    l.sum ^ 2 ≤ (l.length : Rat) * (l.map (fun v => v ^ 2)).sum := by
  induction l with
  | nil => simp
  | cons a t ih =>
    rcases t with _ | ⟨x, t2⟩
    · simp
    · have hq : (0 : Rat) ≤ x ^ 2 + (List.map (fun v => v ^ 2) t2).sum := by
        have := sum_sq_nonneg (x :: t2)
        simpa using this
      have hn0 : (0 : Rat) ≤ (t2.length : Rat) + 1 := by positivity
      have hn1 : (1 : Rat) ≤ (t2.length : Rat) + 1 := by
        have : (0 : Rat) ≤ (t2.length : Rat) := Nat.cast_nonneg _
        linarith
      simp only [List.sum_cons, List.map_cons, List.length_cons] at ih ⊢
      push_cast at ih ⊢
      nlinarith [ih, hq, hn1, sq_nonneg (((t2.length : Rat) + 1) * a - (x + t2.sum)),
        sq_nonneg (a - (x + t2.sum)), mul_le_mul_of_nonneg_left ih hn0]

theorem nvar_nonneg (l : List Rat) : 0 ≤ nvar l := by
  rw [nvar]
  linarith [sq_sum_le l]

theorem ncov_swap (ps : List (Rat × Rat)) :
    ncov (ps.map (fun p => (p.2, p.1))) = ncov ps := by
  have h1 : (ps.map (fun p => (p.2, p.1))).map (fun p : Rat × Rat => p.1 * p.2)
      = ps.map (fun p => p.1 * p.2) := by
    rw [List.map_map]
    exact List.map_congr_left (fun p _ => mul_comm p.2 p.1)
  have h2 : (ps.map (fun p => (p.2, p.1))).map Prod.fst = ps.map Prod.snd := by
    rw [List.map_map]
    exact List.map_congr_left (fun p _ => rfl)
  have h3 : (ps.map (fun p => (p.2, p.1))).map Prod.snd = ps.map Prod.fst := by
    rw [List.map_map]
    exact List.map_congr_left (fun p _ => rfl)
  rw [ncov, ncov, h1, h2, h3, List.length_map]
  ring

theorem pearsonR_symm (xs ys : List (Option Rat)) : pearsonR xs ys = pearsonR ys xs := by
  simp only [pearsonR]
  rw [pairRows_swap xs ys]
  have hfst : ((pairRows xs ys).map (fun p => (p.2, p.1))).map Prod.fst
      = (pairRows xs ys).map Prod.snd := by
    rw [List.map_map]
    exact List.map_congr_left (fun p _ => rfl)
  have hsnd : ((pairRows xs ys).map (fun p => (p.2, p.1))).map Prod.snd
      = (pairRows xs ys).map Prod.fst := by
    rw [List.map_map]
    exact List.map_congr_left (fun p _ => rfl)
  rw [hfst, hsnd, ncov_swap,
    mul_comm (nvar ((pairRows xs ys).map Prod.snd)) (nvar ((pairRows xs ys).map Prod.fst))]

theorem pearsonR_self (xs : List (Option Rat)) (h : nvar (xs.filterMap id) ≠ 0) :
    pearsonR xs xs = some 1 := by
  have hfst : (pairRows xs xs).map Prod.fst = xs.filterMap id := by
    rw [pairRows_self, List.map_map]
    exact List.map_id _
  have hsnd : (pairRows xs xs).map Prod.snd = xs.filterMap id := by
    rw [pairRows_self, List.map_map]
    exact List.map_id _
  have hcov : ncov (pairRows xs xs) = nvar (xs.filterMap id) := by
    rw [ncov, nvar, hfst, hsnd, pairRows_self, List.length_map, List.map_map]
    have hsq : (List.map ((fun p : Rat × Rat => p.1 * p.2) ∘ fun a => (a, a)) (xs.filterMap id))
        = List.map (fun v => v ^ 2) (xs.filterMap id) :=
      List.map_congr_left (fun a _ => (pow_two a).symm)
    rw [hsq]
    ring
  have hpos : 0 < nvar (xs.filterMap id) :=
    lt_of_le_of_ne (nvar_nonneg _) (Ne.symm h)
  simp only [pearsonR]
  rw [hfst, hsnd, hcov, if_neg (mul_ne_zero h h)]
  have hcast : ((nvar (xs.filterMap id) * nvar (xs.filterMap id) : Rat) : Real)
      = ((nvar (xs.filterMap id) : Rat) : Real) ^ 2 := by
    push_cast
    ring
  rw [hcast, Real.sqrt_sq (by exact_mod_cast hpos.le)]
  rw [div_self (by exact_mod_cast hpos.ne')]

/-- Claim C6: the correlation matrix of the selected annual columns (at
least two of them) is the pairwise-complete Pearson correlation (rows where
either value of the pair is missing are dropped, by construction of
`pairRows`); it is symmetric, and every diagonal entry whose
self-correlation is defined (non-degenerate variance) equals 1. -/
theorem corr_matrix_correct (inds : List String) (rows : List Row)
    (h2 : 2 ≤ inds.length) :
    (∀ i j, corr_matrix inds rows i j = corr_matrix inds rows j i)
    ∧ (∀ i, nvar ((annualCol (inds.getD i "") rows).filterMap id) ≠ 0 →
        corr_matrix inds rows i i = some 1)
    ∧ (∀ xs ys, pearsonR xs ys = pearsonR ys xs)
    ∧ (∀ xs, nvar (xs.filterMap id) ≠ 0 → pearsonR xs xs = some 1) :=
  ⟨fun i j => pearsonR_symm _ _, fun i h => pearsonR_self _ h,
    pearsonR_symm, pearsonR_self⟩

/-- Witness for C6: on the sample data the first annual column has
non-degenerate variance, so the diagonal entry is exactly 1, and the
off-diagonal entries are symmetric. -/
theorem corr_matrix_correct_witness :
    ((2 : Nat) ≤ (["a", "b"] : List String).length)
    ∧ nvar ((annualCol ((["a", "b"] : List String).getD 0 "") sampleRows).filterMap id) ≠ 0
    ∧ corr_matrix ["a", "b"] sampleRows 0 0 = some 1
    ∧ corr_matrix ["a", "b"] sampleRows 0 1 = corr_matrix ["a", "b"] sampleRows 1 0 := by
  have hcv18 : colVals "a" 2018 sampleRows = [100] := by decide
  have hcv19 : colVals "a" 2019 sampleRows = [200] := by decide
  have hcv20 : colVals "a" 2020 sampleRows = [] := by decide
  have h18 : groupMean "a" 2018 sampleRows = some 100 := by
    simp only [groupMean, hcv18]
    norm_num [List.sum_cons, List.sum_nil]
  have h19 : groupMean "a" 2019 sampleRows = some 200 := by
    simp only [groupMean, hcv19]
    norm_num [List.sum_cons, List.sum_nil]
  have h20 : groupMean "a" 2020 sampleRows = none := by
    simp [groupMean, hcv20]
  have hyrs : distinctYears sampleRows = [2018, 2019, 2020] := by decide
  have hcol : annualCol "a" sampleRows = [some 100, some 200, none] := by
    rw [annualCol, hyrs, List.map_cons, List.map_cons, List.map_cons, List.map_nil,
      h18, h19, h20]
  have hfm : (annualCol "a" sampleRows).filterMap id = [100, 200] := by
    rw [hcol]
    rfl
  have hnv : nvar ((annualCol "a" sampleRows).filterMap id) ≠ 0 := by
    rw [hfm, nvar]
    norm_num [List.map_cons, List.map_nil, List.sum_cons, List.sum_nil,
      List.length_cons, List.length_nil]
  obtain ⟨hsym, hdiag, -, -⟩ := corr_matrix_correct ["a", "b"] sampleRows (by decide)
  exact ⟨by decide, hnv, hdiag 0 hnv, hsym 0 1⟩

/-- Claim C7 counterexample: with a single available key indicator the
correlation-matrix section of `show_correlations` emits nothing at all — in
particular no informational placeholder, contrary to the claim (the `if`
guarding the heatmap has no `else` branch in the source). -/
theorem corrSection_single_counterexample :
    corrSection ["ny.gdp.mktp.cd"] = []
      ∧ hasPlaceholder (corrSection ["ny.gdp.mktp.cd"]) = false := by
  exact ⟨by decide, by decide⟩

/-- Claim C7 (amended): no view section raises — with fewer than two
available indicators the correlation section is silently omitted (it emits
nothing, not an informational placeholder), while the dual-series scatter
does emit an informational placeholder whenever the selected variables are
not both available annual columns. -/
theorem viewSelector_amended (inds cols : List String) (x y : String) :
    (inds.length < 2 → corrSection inds = [])
    ∧ (2 ≤ inds.length →
        corrSection inds = [ViewElem.chart "Correlation Matrix of Key Indicators"])
    ∧ (¬ (x ∈ cols ∧ y ∈ cols) → scatterSection cols x y
        = ViewElem.placeholder
            "One or both of the selected variables are not available in the dataset") := by
  refine ⟨fun h => ?_, fun h => ?_, fun h => ?_⟩
  · rw [corrSection, if_neg (by omega)]
  · rw [corrSection, if_pos h]
  · rw [scatterSection, if_neg h]

/-- Witness for the amended C7: one selected indicator yields the empty
correlation section, and a scatter selection with an unavailable column
yields the informational placeholder. -/
theorem viewSelector_amended_witness :
    ((["a"] : List String).length < 2 ∧ corrSection ["a"] = [])
    ∧ (¬ ("a" ∈ (["a"] : List String) ∧ "b" ∈ (["a"] : List String))
        ∧ scatterSection ["a"] "a" "b"
            = ViewElem.placeholder
                "One or both of the selected variables are not available in the dataset") := by
  obtain ⟨h1, -, h3⟩ := viewSelector_amended ["a"] ["a"] "a" "b"
  exact ⟨⟨by decide, h1 (by decide)⟩, by decide, h3 (by decide)⟩

end SLDash
